import Mathlib

/-!
Verification development for the IGotYou repository.

Shallow embedding of:
  * the mean-based filter stage of `analysis_tool`
    (`IGotYou_Agent/sub_Agents/analysis_agent.py`),
  * the legacy filter stage of `analysis_tool`
    (`IGotYou/sub_agents/analysis_agent.py`),
  * the decoder `parse_agent_response` (`backend/main.py`).

Python dicts for candidates are modelled as a record of optional fields
(`none` = key absent); Python numbers (floats/ints) are modelled as `ℚ`.
The per-candidate Google-Maps detail fetch at the end of `analysis_tool`
is an external call (out of the filter stage); the filter stage's output
is the `top_3_gems` list selected before that fetch.
-/

/-- A candidate dict as produced by the discovery stage.  `none` models an
absent dict key; `p.get(k, d)` becomes `Option.getD`. -/
structure Candidate where
  name : Option String
  reviews : Option ℚ
  rating : Option ℚ
  types : List String
  score : Option Int
  place_id : Option String
  deriving DecidableEq

/- Batteries marks the rational-number operations irreducible; reset them
so that concrete runs of the embedded code reduce. -/
set_option allowUnsafeReducibility true in
attribute [semireducible] Rat.add Rat.mul Rat.inv Rat.sub Rat.ofScientific

/-- Substring test on char lists: Python's `kw in name_lower`. -/
def subList (needle : List Char) : List Char → Bool
  | [] => needle.isEmpty
  | c :: rest => needle.isPrefixOf (c :: rest) || subList needle rest

/-- Python's `kw in s` substring containment for strings. -/
def strIn (needle hay : String) : Bool :=
  subList needle.toList hay.toList

/-- ASCII lowercasing of one character.  Python's `str.lower()` is
Unicode-aware; every name and denylist keyword in this development is
ASCII, where the two agree. -/
def lowerChar (c : Char) : Char :=
  if c.toNat < 65 || 90 < c.toNat then c else Char.ofNat (c.toNat + 32)

/-- `name.lower()` as a char list. -/
def lowerStr (s : String) : List Char := s.toList.map lowerChar

/-- `BUSINESS_KEYWORDS` from `IGotYou_Agent/sub_Agents/analysis_agent.py`. -/
def BUSINESS_KEYWORDS : List String :=
  ["restaurant", "cafe", "coffee", "hotel", "hostel", "inn",
   "shop", "store", "market", "bar", "pub", "club", "nightclub",
   "bakery", "bistro", "eatery", "dining", "diner", "pizzeria",
   "mall", "boutique", "salon", "spa", "gym", "school", "instructor",
   "rental", "center"]

/-- `BUSINESS_TYPES` from `IGotYou_Agent/sub_Agents/analysis_agent.py`. -/
def BUSINESS_TYPES : List String :=
  ["restaurant", "cafe", "bar", "food", "meal_takeaway",
   "lodging", "store", "shopping_mall", "department_store",
   "bakery", "night_club", "casino", "school", "travel_agency", "Ski_school"]

/-- `is_business_name or is_business_type` for one candidate:
name keyword check is a substring test on the lowercased name
(`kw in name_lower`), type check is list membership (`bt in place_types`). -/
def isBusiness (p : Candidate) : Bool :=
  BUSINESS_KEYWORDS.any (fun kw => subList kw.toList (lowerStr (p.name.getD "")))
    || BUSINESS_TYPES.any (fun bt => p.types.contains bt)

/-- `mean_value`: sum of `c.get('reviews', 0)` over all of `cands`, divided by
`len(cands)`; `0` for an empty list. -/
def mean_value (cands : List Candidate) : ℚ :=
  if cands.isEmpty then 0
  else (cands.map (fun c => c.reviews.getD 0)).sum / (cands.length : ℚ)

/-- Loop body of the first (tiered) pass of `analysis_tool`: skip businesses,
then assign score 2 / 1 / 0 according to the review-count ranges, first
match wins; `none` = the candidate is not appended (and not mutated). -/
def tierStep (mv mvHalf : ℚ) (p : Candidate) : Option Candidate :=
  if isBusiness p then none
  else
    let rev := p.reviews.getD 0
    let rate := p.rating.getD 0
    if 3.5 ≤ rate then
      if 10 ≤ rev ∧ rev ≤ mvHalf then some { p with score := some 2 }
      else if 10 ≤ rev ∧ rev ≤ mv then some { p with score := some 1 }
      else if rev ≤ mv * 2 ∧ 4.5 ≤ rate then some { p with score := some 0 }
      else none
    else none

/-- First pass over `cands`.  Returns `(potential_hidden_gems, cands')`
where `cands'` is the post-state of the input list: `p['score'] = k`
mutates the dict in place, so an appended candidate is also updated in
the input list. -/
def tierPass (mv mvHalf : ℚ) : List Candidate → List Candidate × List Candidate
  | [] => ([], [])
  | p :: rest =>
    let tail := tierPass mv mvHalf rest
    match tierStep mv mvHalf p with
    | some p' => (p' :: tail.1, p' :: tail.2)
    | none => (tail.1, p :: tail.2)

/-- Loop body of the fallback pass: any non-business candidate with
`rate >= 4.0` gets `score = -1`. -/
def fallbackStep (p : Candidate) : Option Candidate :=
  if !isBusiness p && decide ((4.0 : ℚ) ≤ p.rating.getD 0) then
    some { p with score := some (-1) }
  else none

/-- Fallback pass over `cands` (runs only when the first pass found
nothing, hence over the unmutated input list). -/
def fallbackPass : List Candidate → List Candidate × List Candidate
  | [] => ([], [])
  | p :: rest =>
    let tail := fallbackPass rest
    match fallbackStep p with
    | some p' => (p' :: tail.1, p' :: tail.2)
    | none => (tail.1, p :: tail.2)

/-- Both passes combined: the `potential_hidden_gems` list and the
post-state of `cands` after `analysis_tool`'s filter phase. -/
def passResult (cands : List Candidate) : List Candidate × List Candidate :=
  let mv := mean_value cands
  let t := tierPass mv (mv / 2) cands
  if t.1.isEmpty then fallbackPass cands else t

/-- The `potential_hidden_gems` list of `analysis_tool`. -/
def potential_hidden_gems (cands : List Candidate) : List Candidate :=
  (passResult cands).1

/-- Python's tuple comparison for the sort key
`(x.get('score', 0), x['rating'])`. -/
def gemKeyLe (a b : Candidate) : Bool :=
  decide (a.score.getD 0 < b.score.getD 0
    ∨ (a.score.getD 0 = b.score.getD 0 ∧ a.rating.getD 0 ≤ b.rating.getD 0))

/-- Insert into a descending-sorted list, keeping original order on ties:
`a` goes before the first `b` with `key b ≤ key a`. -/
def insertDescBy (le : α → α → Bool) (a : α) : List α → List α
  | [] => [a]
  | b :: l => if le b a then a :: b :: l else b :: insertDescBy le a l

/-- Stable descending sort, the semantics of Python's
`list.sort(key=..., reverse=True)`. -/
def sortDescBy (le : α → α → Bool) : List α → List α
  | [] => []
  | a :: l => insertDescBy le a (sortDescBy le l)

/-- Outcome of the filter stage of either `analysis_tool`.
`apiError` models the early `gmaps_client` missing return,
`zeroGems` the `status: zero_gems` dict,
`keyError` a `KeyError` raised by the sort key `x['rating']`,
`gems l` the `top_3_gems` list handed to the detail-fetch loop. -/
inductive FilterOutcome where
  | apiError
  | zeroGems
  | keyError
  | gems (l : List Candidate)
  deriving DecidableEq

/-- Filter stage of the mean-based `analysis_tool`
(`IGotYou_Agent/sub_Agents/analysis_agent.py`), up to and including the
selection of `top_3_gems`.  `cfg` models `gmaps_client` being configured.
Returns the outcome together with the post-state of the input list
(CPython's sort computes `x['rating']` for every element first, so a
missing `rating` key on any element of the list raises). -/
def analysis_tool (cfg : Bool) (cands : List Candidate) :
    FilterOutcome × List Candidate :=
  if !cfg then (.apiError, cands)
  else
    let pr := passResult cands
    if pr.1.isEmpty then (.zeroGems, pr.2)
    else if pr.1.all (fun c => c.rating.isSome) then
      (.gems ((sortDescBy gemKeyLe pr.1).take 3), pr.2)
    else (.keyError, pr.2)

namespace Legacy

/-- Filter stage of the legacy `analysis_tool`
(`IGotYou/sub_agents/analysis_agent.py`): keep candidates with
`reviews < 300`, sort by `x.get('rating', 0)` descending, take 3.
It never mutates its input and its sort key never raises. -/
def analysis_tool (cfg : Bool) (cands : List Candidate) : FilterOutcome :=
  if !cfg then .apiError
  else if cands.isEmpty then .zeroGems
  else
    let potential_gems := cands.filter (fun p => decide (p.reviews.getD 0 < 300))
    if potential_gems.isEmpty then .zeroGems
    else .gems ((sortDescBy
        (fun a b => decide (a.rating.getD 0 ≤ b.rating.getD 0))
        potential_gems).take 3)

end Legacy

namespace SpecModel

/-- Follows the spec's words (Filter Engine, step 2): the mean review
count is the average of `reviewCount` over only the candidates that
survive the business-denylist rejection of step 1.  Used only to compare
against the source definition `mean_value`. -/
def meanReviewsSpec (cands : List Candidate) : ℚ :=
  let survivors := cands.filter (fun c => !isBusiness c)
  if survivors.isEmpty then 0
  else (survivors.map (fun c => c.reviews.getD 0)).sum / (survivors.length : ℚ)

/-- Spec step 3 (tier assignment, first match wins), with the thresholds
taken from the mean `mv`. -/
def tierOfSpec (mv : ℚ) (c : Candidate) : Option Candidate :=
  let rev := c.reviews.getD 0
  let rate := c.rating.getD 0
  if 10 ≤ rev ∧ rev ≤ mv / 2 ∧ 3.5 ≤ rate then some { c with score := some 2 }
  else if 10 ≤ rev ∧ rev ≤ mv ∧ 3.5 ≤ rate then some { c with score := some 1 }
  else if rev ≤ 2 * mv ∧ 4.5 ≤ rate then some { c with score := some 0 }
  else none

/-- Spec step 4 (fallback pass): any non-business candidate with
`rating ≥ 4.0` gets tier FALLBACK, score −1. -/
def fallbackOfSpec (c : Candidate) : Option Candidate :=
  if (4.0 : ℚ) ≤ c.rating.getD 0 then some { c with score := some (-1) } else none

/-- Modelled from the spec, Filter Engine (steps 1–6), with the single
amendment forced by the counterexample to C1: the mean is taken over ALL
input candidates (denylist-rejected candidates included), not only over
the surviving ones.  `none` is the ZeroGemsSignal. -/
def filterSpecAmended (cands : List Candidate) : Option (List Candidate) :=
  let survivors := cands.filter (fun c => !isBusiness c)
  if survivors.isEmpty then none
  else
    let mv := (cands.map (fun c => c.reviews.getD 0)).sum / (cands.length : ℚ)
    let tiered := survivors.filterMap (tierOfSpec mv)
    let pool := if tiered.isEmpty then survivors.filterMap fallbackOfSpec
      else tiered
    if pool.isEmpty then none
    else some ((sortDescBy gemKeyLe pool).take 3)

end SpecModel

/-! Concrete candidates used in the scenario claims. -/

/-- Scenario candidate: 50 reviews, rating 4.2, non-business. -/
def candA : Candidate :=
  ⟨some "Alpine Meadow", some 50, some 4.2, [], none, none⟩

/-- Scenario candidate: 20 reviews, rating 4.8, non-business. -/
def candB : Candidate :=
  ⟨some "Quiet Waterfall", some 20, some 4.8, [], none, none⟩

/-- Scenario candidate: 900 reviews, rating 4.9, non-business. -/
def candC : Candidate :=
  ⟨some "Famous Viewpoint", some 900, some 4.9, [], none, none⟩

/-- A business candidate (name contains the keyword `cafe`). -/
def candCafe : Candidate :=
  ⟨some "Cozy Cafe", some 1000, some 4.8, [], none, none⟩

/-- A non-business candidate with 10 reviews and rating 4.6. -/
def candLake : Candidate :=
  ⟨some "Emerald Lake", some 10, some 4.6, [], none, none⟩

/-- A business candidate with few reviews (for the legacy comparison). -/
def candCafeSmall : Candidate :=
  ⟨some "Cozy Cafe", some 50, some 4.8, [], none, none⟩

/-- Erase the `score` field of a candidate (used to state that the filter
mutates nothing except `score`). -/
def clearScore (c : Candidate) : Candidate := { c with score := none }

/-!
Embedding of the decoder `parse_agent_response` (`backend/main.py`).

Python objects produced by `json.loads` are modelled by `Json`; numbers
become `ℚ`.  The two `re.search` patterns of the decoder are emulated
literally: both are deterministic once the leftmost matching start
position is fixed, because every `\s*` in them is followed by a
non-whitespace literal, so the only backtracking point is the optional
`json` tag and the lazy `.*?` groups (smallest closing position whose
tail matches).  `float` specials (`NaN`, `Infinity`) accepted by Python's
`json` are not representable in `ℚ` and are modelled as parse failures;
none of the verified inputs contains them.
-/

/-- A parsed JSON value (a Python object produced by `json.loads`).
Object fields keep insertion order, first occurrence wins the position
and the last duplicate wins the value, as for a Python dict. -/
inductive Json where
  | null
  | bool (b : Bool)
  | num (q : ℚ)
  | str (s : String)
  | arr (elems : List Json)
  | obj (fields : List (String × Json))

/-- Python regex `\s` / `str.strip` whitespace, restricted to ASCII. -/
def reWsChar (c : Char) : Bool :=
  c = ' ' || c = '\t' || c = '\n' || c = '\r' || c = '\x0b' || c = '\x0c'

/-- JSON whitespace as skipped by Python's `json` scanner. -/
def jsonWsChar (c : Char) : Bool :=
  c = ' ' || c = '\t' || c = '\n' || c = '\r'

/-- Skip JSON whitespace. -/
def dropJsonWs (l : List Char) : List Char := l.dropWhile jsonWsChar

/-- Python's `str.strip()`. -/
def pyStrip (l : List Char) : List Char :=
  ((l.dropWhile reWsChar).reverse.dropWhile reWsChar).reverse

/-- Value of a hexadecimal digit. -/
def hexDigitVal (c : Char) : Option Nat :=
  if '0' ≤ c ∧ c ≤ '9' then some (c.toNat - 48)
  else if 'a' ≤ c ∧ c ≤ 'f' then some (c.toNat - 87)
  else if 'A' ≤ c ∧ c ≤ 'F' then some (c.toNat - 55)
  else none

/-- Scan a JSON string body (after the opening quote) in strict mode:
returns the decoded characters and the input after the closing quote.
Unescaped control characters and unknown escapes are errors, as in
Python's strict `json.loads`. -/
def jsonStrAux : List Char → Option (List Char × List Char)
  | [] => none
  | '"' :: rest => some ([], rest)
  | '\\' :: 'u' :: a :: b :: c :: d :: rest =>
    match hexDigitVal a, hexDigitVal b, hexDigitVal c, hexDigitVal d with
    | some ha, some hb, some hc, some hd =>
      match jsonStrAux rest with
      | none => none
      | some (cs, r) =>
        some (Char.ofNat (((ha * 16 + hb) * 16 + hc) * 16 + hd) :: cs, r)
    | _, _, _, _ => none
  | '\\' :: e :: rest =>
    let m : Option Char :=
      if e = '"' then some '"'
      else if e = '\\' then some '\\'
      else if e = '/' then some '/'
      else if e = 'b' then some (Char.ofNat 8)
      else if e = 'f' then some (Char.ofNat 12)
      else if e = 'n' then some '\n'
      else if e = 'r' then some '\r'
      else if e = 't' then some '\t'
      else none
    match m with
    | none => none
    | some ch =>
      match jsonStrAux rest with
      | none => none
      | some (cs, r) => some (ch :: cs, r)
  | c :: rest =>
    if c.toNat < 32 then none
    else
      match jsonStrAux rest with
      | none => none
      | some (cs, r) => some (c :: cs, r)

/-- Decimal digit test. -/
def isDigitCh (c : Char) : Bool := '0' ≤ c && c ≤ '9'

/-- Numeric value of a digit list. -/
def natOfDigits (ds : List Char) : Nat :=
  ds.foldl (fun n c => n * 10 + (c.toNat - 48)) 0

/-- Parse a JSON number with Python's grammar
`(-?(?:0|[1-9]\d*))(\.\d+)?([eE][-+]?\d+)?`: an unmatched optional group
leaves its characters as trailing input (caught later as extra data). -/
def jsonNumber (l : List Char) : Option (ℚ × List Char) :=
  let signed : Bool × List Char :=
    match l with
    | '-' :: rest => (true, rest)
    | _ => (false, l)
  let ipart : Option (Nat × List Char) :=
    match signed.2 with
    | '0' :: rest => some (0, rest)
    | c :: rest =>
      if isDigitCh c then
        some (natOfDigits (c :: rest.takeWhile isDigitCh), rest.dropWhile isDigitCh)
      else none
    | [] => none
  match ipart with
  | none => none
  | some (ip, l2) =>
    let fracp : ℚ × List Char :=
      match l2 with
      | '.' :: rest =>
        let ds := rest.takeWhile isDigitCh
        if ds.isEmpty then (0, l2)
        else ((natOfDigits ds : ℚ) / ((10 : ℚ) ^ ds.length), rest.dropWhile isDigitCh)
      | _ => (0, l2)
    let expp : ℚ × List Char :=
      match fracp.2 with
      | e :: rest =>
        if e = 'e' || e = 'E' then
          let se : Bool × List Char :=
            match rest with
            | '+' :: r2 => (false, r2)
            | '-' :: r2 => (true, r2)
            | _ => (false, rest)
          let ds := se.2.takeWhile isDigitCh
          if ds.isEmpty then (1, fracp.2)
          else if se.1 then (1 / ((10 : ℚ) ^ natOfDigits ds), se.2.dropWhile isDigitCh)
          else (((10 : ℚ) ^ natOfDigits ds), se.2.dropWhile isDigitCh)
        else (1, fracp.2)
      | [] => (1, fracp.2)
    let mag : ℚ := ((ip : ℚ) + fracp.1) * expp.1
    some (if signed.1 then -mag else mag, expp.2)

/-- Add a key/value pair to an object under Python dict semantics:
a duplicate key keeps its first position and takes the last value. -/
def objAdd (flds : List (String × Json)) (k : String) (v : Json) :
    List (String × Json) :=
  if flds.any (fun kv => kv.1 == k) then
    flds.map (fun kv => if kv.1 == k then (k, v) else kv)
  else flds ++ [(k, v)]

/-- Python `d[k]` / `k in d` on a parsed object. -/
def lookupField (flds : List (String × Json)) (k : String) : Option Json :=
  match flds.find? (fun kv => kv.1 == k) with
  | some kv => some kv.2
  | none => none

mutual

/-- Parse one JSON value starting at the head of the input (whitespace
already skipped by the caller).  The fuel argument only bounds recursion
depth; `jsonLoads` supplies more fuel than any input can consume. -/
def jsonVal : Nat → List Char → Option (Json × List Char)
  | 0, _ => none
  | _ + 1, [] => none
  | fuel + 1, c :: rest =>
    if c = '"' then
      match jsonStrAux rest with
      | none => none
      | some (cs, r) => some (.str (String.mk cs), r)
    else if c = '\x7b' then
      match dropJsonWs rest with
      | '\x7d' :: r2 => some (.obj [], r2)
      | r1 => jsonMembers fuel r1 []
    else if c = '[' then
      match dropJsonWs rest with
      | ']' :: r2 => some (.arr [], r2)
      | r1 => jsonElems fuel r1 []
    else if c = 't' then
      match rest with
      | 'r' :: 'u' :: 'e' :: r => some (.bool true, r)
      | _ => none
    else if c = 'f' then
      match rest with
      | 'a' :: 'l' :: 's' :: 'e' :: r => some (.bool false, r)
      | _ => none
    else if c = 'n' then
      match rest with
      | 'u' :: 'l' :: 'l' :: r => some (.null, r)
      | _ => none
    else
      match jsonNumber (c :: rest) with
      | none => none
      | some (q, r) => some (.num q, r)

/-- Parse array elements (input starts at a value). -/
def jsonElems : Nat → List Char → List Json → Option (Json × List Char)
  | 0, _, _ => none
  | fuel + 1, l, acc =>
    match jsonVal fuel l with
    | none => none
    | some (v, r) =>
      match dropJsonWs r with
      | ',' :: r2 => jsonElems fuel (dropJsonWs r2) (v :: acc)
      | ']' :: r2 => some (.arr (v :: acc).reverse, r2)
      | _ => none

/-- Parse object members (input starts at a key string). -/
def jsonMembers : Nat → List Char → List (String × Json) →
    Option (Json × List Char)
  | 0, _, _ => none
  | fuel + 1, l, acc =>
    match l with
    | '"' :: rest =>
      match jsonStrAux rest with
      | none => none
      | some (cs, r) =>
        match dropJsonWs r with
        | ':' :: r2 =>
          match jsonVal fuel (dropJsonWs r2) with
          | none => none
          | some (v, r3) =>
            match dropJsonWs r3 with
            | ',' :: r5 => jsonMembers fuel (dropJsonWs r5) (objAdd acc (String.mk cs) v)
            | '\x7d' :: r5 => some (.obj (objAdd acc (String.mk cs) v), r5)
            | _ => none
        | _ => none
    | _ => none

end

/-- Python's `json.loads`: skip leading whitespace, parse a value, and
require only whitespace to remain. -/
def jsonLoads (l : List Char) : Option Json :=
  match jsonVal (l.length + 2) (dropJsonWs l) with
  | none => none
  | some (v, rest) => if (dropJsonWs rest).isEmpty then some v else none

/-- The three backticks delimiting a fenced code block. -/
def ticks : List Char := ['\x60', '\x60', '\x60']

/-- Does `\s*` followed by three backticks match here? (Deterministic:
a backtick is not whitespace, so only the maximal skip can succeed.) -/
def fenceCloseAt (l : List Char) : Bool :=
  (l.dropWhile reWsChar).take 3 == ticks

/-- Lazy scan of the group `\{.*?\}` inside a fence: returns the group
content up to and including the first `\x7d` whose tail matches
`\s*` three backticks. -/
def findCloseFence : List Char → Option (List Char)
  | [] => none
  | '\x7d' :: tail =>
    if fenceCloseAt tail then some ['\x7d']
    else
      match findCloseFence tail with
      | none => none
      | some g => some ('\x7d' :: g)
  | c :: tail =>
    match findCloseFence tail with
    | none => none
    | some g => some (c :: g)

/-- After the fence (and optional `json` tag): `\s*` then the lazy
braced group. -/
def tryFenceBody (r : List Char) : Option (List Char) :=
  match r.dropWhile reWsChar with
  | '\x7b' :: after =>
    match findCloseFence after with
    | none => none
    | some g => some ('\x7b' :: g)
  | _ => none

/-- Try the full fence pattern at this position, preferring the greedy
`json` tag and backtracking to the untagged form, like `(?:json)?`. -/
def tryFenceAt (l : List Char) : Option (List Char) :=
  if l.take 3 == ticks then
    let rest := l.drop 3
    let withTag : Option (List Char) :=
      if rest.take 4 == ['j', 's', 'o', 'n'] then tryFenceBody (rest.drop 4)
      else none
    match withTag with
    | some g => some g
    | none => tryFenceBody rest
  else none

/-- Leftmost search for the decoder's first pattern, returning `group(1)`
(the braced span inside the fence). -/
def regexFence : List Char → Option (List Char)
  | [] => none
  | c :: t =>
    match tryFenceAt (c :: t) with
    | some g => some g
    | none => regexFence t

/-- Match a literal character sequence. -/
def eatLit : List Char → List Char → Option (List Char)
  | [], l => some l
  | _ :: _, [] => none
  | c :: cs, x :: xs => if c = x then eatLit cs xs else none

/-- Lazy scan for `\].*` of the second pattern: the first `]` whose tail
matches `\s*\}`; returns the input remaining after that `\x7d`. -/
def findCloseGems : List Char → Option (List Char)
  | [] => none
  | ']' :: tail =>
    match tail.dropWhile reWsChar with
    | '\x7d' :: r => some r
    | _ => findCloseGems tail
  | _ :: tail => findCloseGems tail

/-- Try the pattern `\{\s*"gems"\s*:\s*\[.*?\]\s*\}` at this position;
returns the input remaining after the match. -/
def tryGemsAt (l : List Char) : Option (List Char) :=
  match l with
  | '\x7b' :: r1 =>
    match eatLit ['"', 'g', 'e', 'm', 's', '"'] (r1.dropWhile reWsChar) with
    | none => none
    | some r3 =>
      match r3.dropWhile reWsChar with
      | ':' :: r5 =>
        match r5.dropWhile reWsChar with
        | '[' :: r7 => findCloseGems r7
        | _ => none
      | _ => none
  | _ => none

/-- Leftmost search for the decoder's second pattern, returning
`group(0)` (the whole matched span). -/
def regexGems : List Char → Option (List Char)
  | [] => none
  | c :: t =>
    match tryGemsAt (c :: t) with
    | some rem => some ((c :: t).take ((c :: t).length - rem.length))
    | none => regexGems t

/-- The cascade of `parse_agent_response` that chooses `json_str`:
fenced block group, else `gems`-object span, else the suffix from the
first `\x7b` (or the whole text when there is none). -/
def select_json_str (t : List Char) : List Char :=
  match regexFence t with
  | some g => g
  | none =>
    match regexGems t with
    | some g => g
    | none =>
      let d := t.dropWhile (fun c => !(c == '\x7b'))
      if d.isEmpty then t else d

/-- The constant `{"gems": []}` returned on every failure path. -/
def emptyGemsObj : Json := Json.obj [("gems", Json.arr [])]

/-- Validation and exception handling after `json.loads`: a non-dict
raises on `.keys()` (caught), a dict whose `gems` entry is missing or
not a list yields the empty default; only a dict with a `gems` list is
returned as is. -/
def decodeStage : Option Json → Json
  | none => emptyGemsObj
  | some v =>
    match v with
    | .obj flds =>
      match lookupField flds "gems" with
      | some (.arr _) => .obj flds
      | _ => emptyGemsObj
    | _ => emptyGemsObj

/-- The decoder `parse_agent_response` of `backend/main.py` (its `query`
argument is unused by the function and omitted). -/
def parse_agent_response (raw : String) : Json :=
  decodeStage (jsonLoads (select_json_str (pyStrip raw.toList)))

/-- The result shape guaranteed by the decoder: a dict whose `gems`
entry is a list. -/
def hasGemsList : Json → Bool
  | .obj flds =>
    match lookupField flds "gems" with
    | some (.arr _) => true
    | _ => false
  | _ => false

/-- Scenario input of C6: a fenced `json` block followed by trailing
log noise that itself contains braces. -/
def rawFenced : String :=
  "\x60\x60\x60json\n\x7b\"status\":\"success\",\"gems\":[\x7b\"name\":\"X\",\"rating\":4.1\x7d]\x7d\n\x60\x60\x60 extra trailing log noise \x7bnot json\x7d"

/-- An unrecoverable input: no fenced block, no `gems` object, no brace,
not JSON. -/
def rawGarbage : String := "random log line without json"

/-- A Markdown recommendation with a per-item header and no JSON. -/
def rawMarkdown : String := "### 1. Hidden Lake\nA quiet spot."

/-! Helper lemmas about the embedded filter. -/

theorem insertDescBy_length (le : α → α → Bool) (a : α) (l : List α) :
    (insertDescBy le a l).length = l.length + 1 := by
  induction l with
  | nil => rfl
  | cons b t ih =>
    simp only [insertDescBy]
    split <;> simp [ih]

theorem sortDescBy_length (le : α → α → Bool) (l : List α) :
    (sortDescBy le l).length = l.length := by
  induction l with
  | nil => rfl
  | cons a t ih => simp [sortDescBy, insertDescBy_length, ih]

theorem tierStep_eq_spec (mv : ℚ) (p : Candidate) :
    tierStep mv (mv / 2) p =
      if isBusiness p then none else SpecModel.tierOfSpec mv p := by
  unfold tierStep SpecModel.tierOfSpec
  by_cases hb : isBusiness p = true
  · simp [hb]
  · simp only [hb, if_neg, Bool.false_eq_true, if_false]
    by_cases hA : (3.5 : ℚ) ≤ p.rating.getD 0
    · by_cases h1 : 10 ≤ p.reviews.getD 0 ∧ p.reviews.getD 0 ≤ mv / 2
      · simp [hA, h1]
      · by_cases h2 : 10 ≤ p.reviews.getD 0 ∧ p.reviews.getD 0 ≤ mv
        · simp [hA, h1, h2]
        · by_cases h3 : p.reviews.getD 0 ≤ mv * 2 ∧ (4.5 : ℚ) ≤ p.rating.getD 0
          · simp [hA, h1, h2, h3, mul_comm mv 2]
          · have h3' : ¬(p.reviews.getD 0 ≤ 2 * mv ∧ (4.5 : ℚ) ≤ p.rating.getD 0) := by
              rw [mul_comm 2 mv]; exact h3
            simp [hA, h1, h2, h3, h3']
    · have h1 : ¬(10 ≤ p.reviews.getD 0 ∧ p.reviews.getD 0 ≤ mv / 2 ∧
          (3.5 : ℚ) ≤ p.rating.getD 0) := fun h => hA h.2.2
      have h2 : ¬(10 ≤ p.reviews.getD 0 ∧ p.reviews.getD 0 ≤ mv ∧
          (3.5 : ℚ) ≤ p.rating.getD 0) := fun h => hA h.2.2
      have h3 : ¬(p.reviews.getD 0 ≤ 2 * mv ∧ (4.5 : ℚ) ≤ p.rating.getD 0) := by
        intro h
        exact hA (by linarith [h.2])
      simp [hA, h1, h2, h3]

theorem fallbackStep_eq_spec (p : Candidate) :
    fallbackStep p =
      if isBusiness p then none else SpecModel.fallbackOfSpec p := by
  unfold fallbackStep SpecModel.fallbackOfSpec
  by_cases hb : isBusiness p = true
  · simp [hb]
  · by_cases hr : (4.0 : ℚ) ≤ p.rating.getD 0 <;> simp [hb, hr]

theorem tierPass_fst (mv : ℚ) (cands : List Candidate) :
    (tierPass mv (mv / 2) cands).1 =
      (cands.filter (fun c => !isBusiness c)).filterMap (SpecModel.tierOfSpec mv) := by
  induction cands with
  | nil => rfl
  | cons p rest ih =>
    simp only [tierPass, List.filter_cons]
    by_cases hb : isBusiness p = true
    · have hs : tierStep mv (mv / 2) p = none := by
        rw [tierStep_eq_spec]; simp [hb]
      simp [hs, hb, ih]
    · have hs : tierStep mv (mv / 2) p = SpecModel.tierOfSpec mv p := by
        rw [tierStep_eq_spec]; simp [hb]
      cases h : SpecModel.tierOfSpec mv p with
      | none => simp [hs, h, hb, ih, List.filterMap_cons]
      | some q => simp [hs, h, hb, ih, List.filterMap_cons]

theorem fallbackPass_fst (cands : List Candidate) :
    (fallbackPass cands).1 =
      (cands.filter (fun c => !isBusiness c)).filterMap SpecModel.fallbackOfSpec := by
  induction cands with
  | nil => rfl
  | cons p rest ih =>
    simp only [fallbackPass, List.filter_cons]
    by_cases hb : isBusiness p = true
    · have hs : fallbackStep p = none := by
        rw [fallbackStep_eq_spec]; simp [hb]
      simp [hs, hb, ih]
    · have hs : fallbackStep p = SpecModel.fallbackOfSpec p := by
        rw [fallbackStep_eq_spec]; simp [hb]
      cases h : SpecModel.fallbackOfSpec p with
      | none => simp [hs, h, hb, ih, List.filterMap_cons]
      | some q => simp [hs, h, hb, ih, List.filterMap_cons]

theorem tierStep_some (mv mvHalf : ℚ) (p q : Candidate)
    (h : tierStep mv mvHalf p = some q) :
    q.rating = p.rating ∧ q.rating.isSome = true ∧ ∃ v, q = { p with score := some v } := by
  rw [show tierStep mv mvHalf p =
      (if isBusiness p then none
       else if 3.5 ≤ p.rating.getD 0 then
        if 10 ≤ p.reviews.getD 0 ∧ p.reviews.getD 0 ≤ mvHalf then
          some { p with score := some 2 }
        else if 10 ≤ p.reviews.getD 0 ∧ p.reviews.getD 0 ≤ mv then
          some { p with score := some 1 }
        else if p.reviews.getD 0 ≤ mv * 2 ∧ 4.5 ≤ p.rating.getD 0 then
          some { p with score := some 0 }
        else none
       else none) from rfl] at h
  by_cases hb : isBusiness p = true
  · rw [if_pos hb] at h; exact Option.noConfusion h
  · rw [if_neg hb] at h
    split_ifs at h with hA h1 h2 h3
    · injection h with h
      refine ⟨by rw [← h], ?_, ⟨2, h.symm⟩⟩
      rw [← h]
      cases hr : p.rating with
      | none => rw [hr, Option.getD_none] at hA; norm_num at hA
      | some r => simp [hr]
    · injection h with h
      refine ⟨by rw [← h], ?_, ⟨1, h.symm⟩⟩
      rw [← h]
      cases hr : p.rating with
      | none => rw [hr, Option.getD_none] at hA; norm_num at hA
      | some r => simp [hr]
    · injection h with h
      refine ⟨by rw [← h], ?_, ⟨0, h.symm⟩⟩
      rw [← h]
      cases hr : p.rating with
      | none =>
        have h45 := h3.2
        rw [hr, Option.getD_none] at h45; norm_num at h45
      | some r => simp [hr]

theorem fallbackStep_some (p q : Candidate)
    (h : fallbackStep p = some q) :
    q.rating = p.rating ∧ q.rating.isSome = true ∧ ∃ v, q = { p with score := some v } := by
  unfold fallbackStep at h
  split_ifs at h with hc
  · rw [Bool.and_eq_true] at hc
    have h4 : (4.0 : ℚ) ≤ p.rating.getD 0 := of_decide_eq_true hc.2
    injection h with h
    refine ⟨by rw [← h], ?_, ⟨-1, h.symm⟩⟩
    rw [← h]
    cases hr : p.rating with
    | none => rw [hr, Option.getD_none] at h4; norm_num at h4
    | some r => simp [hr]

theorem tierPass_mem_rating (mv mvHalf : ℚ) (cands : List Candidate) :
    ∀ c ∈ (tierPass mv mvHalf cands).1, c.rating.isSome = true := by
  induction cands with
  | nil => intro c hc; simp [tierPass] at hc
  | cons p rest ih =>
    intro c hc
    simp only [tierPass] at hc
    cases h : tierStep mv mvHalf p with
    | some q =>
      rw [h] at hc
      rcases List.mem_cons.mp hc with h1 | h2
      · subst h1; exact (tierStep_some mv mvHalf p c h).2.1
      · exact ih c h2
    | none => rw [h] at hc; exact ih c hc

theorem fallbackPass_mem_rating (cands : List Candidate) :
    ∀ c ∈ (fallbackPass cands).1, c.rating.isSome = true := by
  induction cands with
  | nil => intro c hc; simp [fallbackPass] at hc
  | cons p rest ih =>
    intro c hc
    simp only [fallbackPass] at hc
    cases h : fallbackStep p with
    | some q =>
      rw [h] at hc
      rcases List.mem_cons.mp hc with h1 | h2
      · subst h1; exact (fallbackStep_some p c h).2.1
      · exact ih c h2
    | none => rw [h] at hc; exact ih c hc

theorem phg_mem_rating (cands : List Candidate) :
    ∀ c ∈ potential_hidden_gems cands, c.rating.isSome = true := by
  have h : potential_hidden_gems cands =
      (if ((tierPass (mean_value cands) (mean_value cands / 2) cands).1).isEmpty
        then fallbackPass cands
        else tierPass (mean_value cands) (mean_value cands / 2) cands).1 := rfl
  rw [h]
  split
  · exact fallbackPass_mem_rating cands
  · exact tierPass_mem_rating _ _ cands

theorem tierPass_snd_clear (mv mvHalf : ℚ) (cands : List Candidate) :
    ((tierPass mv mvHalf cands).2).map clearScore = cands.map clearScore := by
  induction cands with
  | nil => rfl
  | cons p rest ih =>
    simp only [tierPass]
    cases h : tierStep mv mvHalf p with
    | some q =>
      obtain ⟨-, -, v, hq⟩ := tierStep_some mv mvHalf p q h
      subst hq
      simp [clearScore, ih]
    | none => simp [clearScore, ih]

theorem fallbackPass_snd_clear (cands : List Candidate) :
    ((fallbackPass cands).2).map clearScore = cands.map clearScore := by
  induction cands with
  | nil => rfl
  | cons p rest ih =>
    simp only [fallbackPass]
    cases h : fallbackStep p with
    | some q =>
      obtain ⟨-, -, v, hq⟩ := fallbackStep_some p q h
      subst hq
      simp [clearScore, ih]
    | none => simp [clearScore, ih]

theorem analysis_tool_true_fst (cands : List Candidate) :
    (analysis_tool true cands).1 =
      if (potential_hidden_gems cands).isEmpty then FilterOutcome.zeroGems
      else FilterOutcome.gems
        ((sortDescBy gemKeyLe (potential_hidden_gems cands)).take 3) := by
  have hall : ((potential_hidden_gems cands).all fun c => c.rating.isSome) = true :=
    List.all_eq_true.mpr (phg_mem_rating cands)
  show (if (potential_hidden_gems cands).isEmpty then
          (FilterOutcome.zeroGems, (passResult cands).2)
        else if (potential_hidden_gems cands).all (fun c => c.rating.isSome) then
          (FilterOutcome.gems ((sortDescBy gemKeyLe (potential_hidden_gems cands)).take 3),
            (passResult cands).2)
        else (FilterOutcome.keyError, (passResult cands).2)).1 = _
  rw [hall]
  split <;> simp

theorem analysis_tool_snd (cfg : Bool) (cands : List Candidate) :
    (analysis_tool cfg cands).2 = if cfg then (passResult cands).2 else cands := by
  cases cfg
  · rfl
  · show (if (passResult cands).1.isEmpty then
          (FilterOutcome.zeroGems, (passResult cands).2)
        else if (passResult cands).1.all (fun c => c.rating.isSome) then
          (FilterOutcome.gems ((sortDescBy gemKeyLe (passResult cands).1).take 3),
            (passResult cands).2)
        else (FilterOutcome.keyError, (passResult cands).2)).2 = _
    split
    · rfl
    · split <;> rfl

theorem phg_spec (cands : List Candidate) :
    potential_hidden_gems cands =
      if ((cands.filter (fun c => !isBusiness c)).filterMap
            (SpecModel.tierOfSpec (mean_value cands))).isEmpty
      then (cands.filter (fun c => !isBusiness c)).filterMap SpecModel.fallbackOfSpec
      else (cands.filter (fun c => !isBusiness c)).filterMap
            (SpecModel.tierOfSpec (mean_value cands)) := by
  have h0 : potential_hidden_gems cands =
      (if ((tierPass (mean_value cands) (mean_value cands / 2) cands).1).isEmpty
        then fallbackPass cands
        else tierPass (mean_value cands) (mean_value cands / 2) cands).1 := rfl
  rw [h0, apply_ite Prod.fst, tierPass_fst, fallbackPass_fst]

theorem fallbackPass_fst_nil (cands : List Candidate)
    (h : (fallbackPass cands).1 = []) :
    ∀ c ∈ cands, fallbackStep c = none := by
  induction cands with
  | nil => intro c hc; simp at hc
  | cons p rest ih =>
    intro c hc
    simp only [fallbackPass] at h
    cases hs : fallbackStep p with
    | some q => rw [hs] at h; simp at h
    | none =>
      rw [hs] at h
      rcases List.mem_cons.mp hc with h1 | h2
      · subst h1; exact hs
      · exact ih h c h2

theorem mean_value_eq (cands : List Candidate) :
    mean_value cands =
      (cands.map (fun c => c.reviews.getD 0)).sum / (cands.length : ℚ) := by
  rw [mean_value]
  cases hc : cands.isEmpty
  · rw [if_neg]; simp [hc]
  · have he : cands = [] := List.isEmpty_iff.mp hc
    subst he
    simp

/-- The pool of spec step 3/4 (used to relate the two definitions). -/
def specPool (cands : List Candidate) : List Candidate :=
  let survivors := cands.filter (fun c => !isBusiness c)
  let mv := (cands.map (fun c => c.reviews.getD 0)).sum / (cands.length : ℚ)
  let tiered := survivors.filterMap (SpecModel.tierOfSpec mv)
  if tiered.isEmpty then survivors.filterMap SpecModel.fallbackOfSpec else tiered

theorem phg_specPool (cands : List Candidate) :
    potential_hidden_gems cands = specPool cands := by
  rw [phg_spec, mean_value_eq]; rfl

theorem filterSpecAmended_eq (cands : List Candidate) :
    SpecModel.filterSpecAmended cands =
      if (cands.filter (fun c => !isBusiness c)).isEmpty then none
      else if (specPool cands).isEmpty then none
      else some ((sortDescBy gemKeyLe (specPool cands)).take 3) := rfl

theorem filterMap_ne_nil_of {α β} (f : α → Option β) (l : List α)
    (h : l.filterMap f ≠ []) : l ≠ [] := by
  intro he; subst he; simp at h

theorem specPool_surv (cands : List Candidate) (h : specPool cands ≠ []) :
    cands.filter (fun c => !isBusiness c) ≠ [] := by
  rw [specPool] at h
  split at h
  · exact filterMap_ne_nil_of _ _ h
  · exact filterMap_ne_nil_of _ _ h

theorem outcome_match_case (surv pool : List Candidate)
    (himp : pool ≠ [] → surv ≠ []) :
    (if pool.isEmpty then FilterOutcome.zeroGems
     else FilterOutcome.gems ((sortDescBy gemKeyLe pool).take 3)) =
      (match (if surv.isEmpty then none
         else if pool.isEmpty then none
         else some ((sortDescBy gemKeyLe pool).take 3) : Option (List Candidate)) with
       | none => FilterOutcome.zeroGems
       | some l => FilterOutcome.gems l) := by
  cases hs : surv.isEmpty <;> cases hp : pool.isEmpty <;> simp [hs, hp]
  have h1 : pool ≠ [] := by
    intro he; subst he; simp at hp
  have h2 : surv = [] := List.isEmpty_iff.mp hs
  exact absurd h2 (himp h1)

theorem take_sort_length {l : List Candidate} (hne : l ≠ [])
    (le : Candidate → Candidate → Bool) :
    1 ≤ ((sortDescBy le l).take 3).length ∧ ((sortDescBy le l).take 3).length ≤ 3 := by
  rw [List.length_take, sortDescBy_length]
  have := List.length_pos.mpr hne
  omega

theorem decodeStage_hasGems : ∀ o : Option Json, hasGemsList (decodeStage o) = true
  | none => rfl
  | some .null => rfl
  | some (.bool _) => rfl
  | some (.num _) => rfl
  | some (.str _) => rfl
  | some (.arr _) => rfl
  | some (.obj flds) => by
    have hd : decodeStage (some (.obj flds)) =
        match lookupField flds "gems" with
        | some (.arr _) => Json.obj flds
        | _ => emptyGemsObj := rfl
    rw [hd]
    cases h : lookupField flds "gems" with
    | none => rfl
    | some jv =>
      cases jv with
      | arr a => simp [hasGemsList, h]
      | null => rfl
      | bool b => rfl
      | num q => rfl
      | str s => rfl
      | obj f2 => rfl

/-! Claim theorems. -/

/-- C1, counterexample: the claim says the mean used by the tier
thresholds is the average reviewCount over only the candidates surviving
the business denylist.  In the source, `mean_value` sums `reviews` over
ALL candidates.  For `[candCafe, candLake]` (a business with 1000
reviews and a surviving lake with 10) the code's mean is 505, while the
survivors-only mean demanded by the claim is 10: the rejected business
contributes to `meanReviews`. -/
theorem C1_counterexample :
    mean_value [candCafe, candLake] = 505 ∧
      SpecModel.meanReviewsSpec [candCafe, candLake] = 10 ∧
      mean_value [candCafe, candLake] ≠ SpecModel.meanReviewsSpec [candCafe, candLake] := by
  decide

/-- C1, amended: the mean used by the tier thresholds is the average
reviewCount over ALL input candidates, denylist-rejected candidates
included.  With that single amendment the filter stage agrees with the
spec's reject / tier / fallback / sort / truncate sequence on every
candidate list. -/
theorem C1_amended_mean_over_all_candidates (cands : List Candidate) :
    (analysis_tool true cands).1 =
      match SpecModel.filterSpecAmended cands with
      | none => FilterOutcome.zeroGems
      | some l => FilterOutcome.gems l := by
  rw [analysis_tool_true_fst, phg_specPool, filterSpecAmended_eq]
  exact outcome_match_case _ _ (specPool_surv cands)

/-- C2: for the scenario input (reviews 50/rating 4.2, 20/4.8, 900/4.9,
all non-business; mean 970/3) the filter-and-sort stage scores the first
two candidates 2 (HIGH), excludes the third, and selects exactly the two
HIGH candidates ordered by rating descending. -/
theorem C2_scenario_top_two_high :
    (analysis_tool true [candA, candB, candC]).1 =
      FilterOutcome.gems
        [{ candB with score := some 2 }, { candA with score := some 2 }] := by
  decide

/-- C3: a candidate list containing at least one non-business candidate
with rating ≥ 4.5 never yields the zero-gems outcome (with the maps
client configured): if the tier pass is empty, the fallback pass admits
that candidate (4.5 ≥ 4.0). -/
theorem C3_rated_high_never_zero_gems (cands : List Candidate) (c : Candidate)
    (hc : c ∈ cands) (hb : isBusiness c = false)
    (hr : (4.5 : ℚ) ≤ c.rating.getD 0) :
    (analysis_tool true cands).1 ≠ FilterOutcome.zeroGems := by
  have hstep : fallbackStep c ≠ none := by
    unfold fallbackStep
    rw [if_pos]
    · exact fun h => Option.noConfusion h
    · rw [Bool.and_eq_true]
      exact ⟨by rw [hb]; rfl, decide_eq_true (le_trans (by norm_num) hr)⟩
  have hphg : potential_hidden_gems cands ≠ [] := by
    intro hnil
    have h0 : potential_hidden_gems cands =
        (if ((tierPass (mean_value cands) (mean_value cands / 2) cands).1).isEmpty
          then fallbackPass cands
          else tierPass (mean_value cands) (mean_value cands / 2) cands).1 := rfl
    rw [h0] at hnil
    split at hnil
    · exact hstep (fallbackPass_fst_nil cands hnil c hc)
    · next hne => exact hne (by rw [hnil]; rfl)
  rw [analysis_tool_true_fst, if_neg]
  · exact fun h => FilterOutcome.noConfusion h
  · intro hemp
    exact hphg (List.isEmpty_iff.mp hemp)

/-- Witness for C3 at the concrete list `[candLake]` (non-business,
rating 4.6 ≥ 4.5). -/
theorem C3_witness :
    (analysis_tool true [candLake]).1 ≠ FilterOutcome.zeroGems :=
  C3_rated_high_never_zero_gems [candLake] candLake (by decide) (by decide)
    (by decide)

/-- C4, counterexample: the claim says that on unrecoverable input the
decoder returns status ERROR with a diagnostic message.  On the
unrecoverable input `rawGarbage` the decoder returns `{"gems": []}` —
an object carrying no `status` field at all (and no `message`). -/
theorem C4_counterexample :
    parse_agent_response rawGarbage = Json.obj [("gems", Json.arr [])] ∧
      ¬∃ flds st, parse_agent_response rawGarbage = Json.obj flds ∧
        lookupField flds "status" = some st := by
  refine ⟨rfl, ?_⟩
  rintro ⟨flds, st, heq, hst⟩
  rw [show parse_agent_response rawGarbage = Json.obj [("gems", Json.arr [])]
    from rfl] at heq
  injection heq with heq
  subst heq
  exact Option.noConfusion hst

/-- C4, amended: for every input string the decoder returns normally
(the embedding is total: every exception path is caught) and its result
is always a dict whose `gems` entry is a list; on unrecoverable input
that dict is `{"gems": []}`, with no `status` and no `message` field. -/
theorem C4_decoder_total_gems_list (s : String) :
    hasGemsList (parse_agent_response s) = true :=
  decodeStage_hasGems _

/-- C5: on a Markdown response with a per-item header and no JSON, the
decoder returns `{"gems": []}`.  The field-level Markdown extraction
(`parse_markdown_response`, documented in its own docstring as the
fallback parser) has no caller anywhere in the repository, so it is
never attempted. -/
theorem C5_markdown_extraction_never_attempted :
    parse_agent_response rawMarkdown = Json.obj [("gems", Json.arr [])] := rfl

/-- C6: the fenced `json` block followed by trailing log noise with
braces decodes to a success object with exactly one gem named X with
rating 4.1 (the lazy fence group stops at the brace closing the JSON
object, not inside it and not at the noise). -/
theorem C6_fenced_json_with_noise :
    parse_agent_response rawFenced =
      Json.obj [("status", Json.str "success"),
        ("gems", Json.arr
          [Json.obj [("name", Json.str "X"), ("rating", Json.num (41/10))]])] := rfl

/-- C7, counterexample: the claim says the filter is pure over its input
and candidates are immutable.  Running the filter on `[candLake]` mutates
the input candidate: `p['score'] = 1` writes a `score` key into the dict
held by the input list. -/
theorem C7_counterexample :
    (analysis_tool true [candLake]).2 ≠ [candLake] := by decide

/-- C7, amended: the filter stage mutates exactly the admitted survivors
by writing a `score` key; apart from the `score` field, every candidate,
every other field, and the list's length and order are unchanged. -/
theorem C7_amended_only_score_mutated (cfg : Bool) (cands : List Candidate) :
    ((analysis_tool cfg cands).2).map clearScore = cands.map clearScore := by
  rw [analysis_tool_snd]
  cases cfg
  · rfl
  · show ((passResult cands).2).map clearScore = cands.map clearScore
    rw [show (passResult cands).2 =
        (if ((tierPass (mean_value cands) (mean_value cands / 2) cands).1).isEmpty
          then fallbackPass cands
          else tierPass (mean_value cands) (mean_value cands / 2) cands).2 from rfl,
      apply_ite Prod.snd]
    split
    · exact fallbackPass_snd_clear cands
    · exact tierPass_snd_clear _ _ cands

/-- C8: whenever either filter implementation produces a gems list, its
length is between 1 and 3; a gems outcome never exceeds three entries
(the remaining outcomes carry no list, length 0). -/
theorem C8_gems_length_bounds (cfg : Bool) (cands : List Candidate)
    (l : List Candidate)
    (h : (analysis_tool cfg cands).1 = FilterOutcome.gems l ∨
      Legacy.analysis_tool cfg cands = FilterOutcome.gems l) :
    1 ≤ l.length ∧ l.length ≤ 3 := by
  rcases h with h | h
  · cases cfg
    · exact absurd h (fun hh => FilterOutcome.noConfusion hh)
    · rw [analysis_tool_true_fst] at h
      split at h
      · exact FilterOutcome.noConfusion h
      · next hne =>
        injection h with h
        subst h
        refine take_sort_length ?_ _
        intro he
        exact hne (by rw [he]; rfl)
  · cases cfg
    · exact absurd h (fun hh => FilterOutcome.noConfusion hh)
    · have hl : Legacy.analysis_tool true cands =
          (if cands.isEmpty then FilterOutcome.zeroGems
           else if (cands.filter (fun p => decide (p.reviews.getD 0 < 300))).isEmpty
            then FilterOutcome.zeroGems
            else FilterOutcome.gems ((sortDescBy
              (fun a b => decide (a.rating.getD 0 ≤ b.rating.getD 0))
              (cands.filter (fun p => decide (p.reviews.getD 0 < 300)))).take 3)) := rfl
      rw [hl] at h
      split at h
      · exact FilterOutcome.noConfusion h
      · split at h
        · exact FilterOutcome.noConfusion h
        · next hne =>
          injection h with h
          subst h
          refine take_sort_length ?_ _
          intro he
          exact hne (by rw [he]; rfl)

/-- Witness for C8 at the concrete list `[candLake]` via the mean-based
implementation. -/
theorem C8_witness :
    1 ≤ ([{ candLake with score := some 1 }] : List Candidate).length ∧
      ([{ candLake with score := some 1 }] : List Candidate).length ≤ 3 :=
  C8_gems_length_bounds true [candLake] [{ candLake with score := some 1 }]
    (Or.inl (by decide))

/-- C9: the two near-duplicate filter implementations are extensionally
different.  On `[candCafeSmall]` (a cafe, 50 reviews, rating 4.8) the
legacy variant keeps the cafe (its only criterion is reviews < 300)
while the mean-based canonical variant rejects it by the business
denylist and reports zero gems. -/
theorem C9_legacy_and_canonical_diverge :
    Legacy.analysis_tool true [candCafeSmall] = FilterOutcome.gems [candCafeSmall] ∧
      (analysis_tool true [candCafeSmall]).1 = FilterOutcome.zeroGems ∧
      (analysis_tool true [candCafeSmall]).1 ≠ Legacy.analysis_tool true [candCafeSmall] := by
  decide

/-- C10: every candidate admitted to `potential_hidden_gems` carries a
`rating` key (admission needs rating ≥ 3.5 or ≥ 4.0, which the default 0
of a missing key cannot satisfy), so the sort key `x['rating']` can
never raise: no outcome of the filter stage is `keyError`. -/
theorem C10_survivors_have_rating (cands : List Candidate) :
    (∀ c ∈ potential_hidden_gems cands, c.rating.isSome = true) ∧
      ∀ cfg : Bool, (analysis_tool cfg cands).1 ≠ FilterOutcome.keyError := by
  refine ⟨phg_mem_rating cands, ?_⟩
  intro cfg
  cases cfg
  · exact fun h => FilterOutcome.noConfusion h
  · rw [analysis_tool_true_fst]
    split
    · exact fun h => FilterOutcome.noConfusion h
    · exact fun h => FilterOutcome.noConfusion h

/-- Witness for C10 at the concrete list `[candLake]` and its admitted
survivor. -/
theorem C10_witness :
    ({ candLake with score := some 1 } : Candidate).rating.isSome = true ∧
      (analysis_tool true [candLake]).1 ≠ FilterOutcome.keyError :=
  ⟨(C10_survivors_have_rating [candLake]).1 { candLake with score := some 1 }
    (by decide),
   (C10_survivors_have_rating [candLake]).2 true⟩
